import Mathlib

/-!
Shallow embedding of the writereader-experiment batch-scoring pipeline
(`src/process_parquet.py`, `src/utils.py`) and proofs of its specified
properties.

Modelling conventions:
* A parquet cell value is a `PyVal`; Python `str()` coercion is `pyStr`
  and `str.strip()` is `pyStrip`.
* The pandas DataFrame is a `List Record`; the pandas row index (a
  `RangeIndex`, position in the input file) is the `idx` field, assigned
  by position in `mkRecords`. `df.iloc[i:i+batch_size]` slicing is
  `chunkList`, and `batch_df.loc[page_id]` is `lookupRow` (label lookup,
  `KeyError` when absent).
* The remote scoring service is an oracle `service : List ApiText →
  ApiResponse`: `.failed` is `make_api_call` returning `None`,
  `.missingKey` a truthy JSON body without the `texts` key (or a falsy
  body), `.ok items` a body with a `texts` list. A response item that
  would raise while being read (a non-dict item, a non-dict `gdpr`, ...)
  is `RespItem.malformed`; a well-shaped one is `RespItem.valid`.
* Network attempts inside `make_api_call` come from an attempt oracle
  `env : Nat → Attempt β`; `time.sleep` calls are logged in the returned
  trace rather than performed.
* File writes in `save_results` are returned as a `SavedFiles` record of
  (path, content) options rather than performed.
* `datetime.now()` is wall-clock input with no bearing on any property;
  the `processed_at` field is carried as `Unit`.
-/

/-- A Python value stored in a text cell of the DataFrame. -/
inductive PyVal where
  | vStr (s : String)
  | vNone
  | vInt (n : Int)
  deriving DecidableEq, Repr

/-- Python `str.strip()`: remove leading and trailing whitespace.
Written structurally on the character list so that the kernel can
evaluate it (`String.trim` is defined by well-founded recursion). -/
def pyStrip (s : String) : String :=
  ⟨((s.data.dropWhile Char.isWhitespace).reverse.dropWhile
      Char.isWhitespace).reverse⟩

/-- Python `str()` coercion as the code applies it to a cell value. -/
def pyStr : PyVal → String
  | .vStr s => s
  | .vNone => "None"
  | .vInt n => toString n

/-- One input row as loaded from the parquet file, before the pandas
index is attached. -/
structure RowData where
  iD : String
  childText : PyVal
  adultText : PyVal
  time : String
  deriving DecidableEq, Repr

/-- One row of the loaded DataFrame: `idx` is the pandas `RangeIndex`
label, i.e. the 0-based position of the row in the input file. -/
structure Record where
  idx : Nat
  iD : String
  childText : PyVal
  adultText : PyVal
  time : String
  deriving DecidableEq, Repr

/-- `pd.read_parquet` followed by validation: rows get consecutive
0-based index labels. -/
def mkRecords (rows : List RowData) : List Record :=
  rows.enum.map fun p => ⟨p.1, p.2.iD, p.2.childText, p.2.adultText, p.2.time⟩

/-- One element of the outbound `texts` list
(`{"pageId": i, "childText": ..., "adultText": ...}`). -/
structure ApiText where
  pageId : Nat
  childText : String
  adultText : String
  deriving DecidableEq, Repr

/-- One element of the `skipped` list built by `prepare_api_batch`. -/
structure SkipEntry where
  index : Nat
  id : String
  reason : String
  deriving DecidableEq, Repr

/-- `prepare_api_batch` (src/process_parquet.py:62-87): coerce both text
cells with `str()`, strip them, route the row to `skipped` when either
is empty, else to `texts` with `pageId` the pandas index label. -/
def prepare_api_batch : List Record → List ApiText × List SkipEntry
  | [] => ([], [])
  | r :: rest =>
    let c := pyStrip (pyStr r.childText)
    let a := pyStrip (pyStr r.adultText)
    let p := prepare_api_batch rest
    if c = "" ∨ a = "" then
      (p.1, ⟨r.idx, r.iD, "empty_text"⟩ :: p.2)
    else
      (⟨r.idx, c, a⟩ :: p.1, p.2)

/-- Whether `prepare_api_batch` skips a row: the stripped `str()`
coercion of either text cell is empty. -/
def rowSkipped (r : Record) : Bool :=
  pyStrip (pyStr r.childText) = "" || pyStrip (pyStr r.adultText) = ""

/-- The body of the batching loop, with `fuel` bounding the number of
iterations still possible (each iteration consumes at least one record
when `bs ≥ 1`, so `fuel = l.length` suffices; the fuel only makes the
recursion structural).  The `drop (bs - 1)` of the tail equals `drop bs`
of the whole list whenever `bs ≥ 1`. -/
def chunkGo (bs : Nat) : Nat → List α → List (List α)
  | _, [] => []
  | 0, _ :: _ => []
  | fuel + 1, x :: xs => (x :: xs).take bs :: chunkGo bs fuel (xs.drop (bs - 1))

/-- The batching loop `for i in range(0, len(df), batch_size):
batch_df = df.iloc[i:i+batch_size]` (src/process_parquet.py:107-108),
as the list of slices it visits. -/
def chunkList (bs : Nat) (l : List α) : List (List α) :=
  chunkGo bs l.length l

/-- `total_batches = len(df) // batch_size + (1 if len(df) % batch_size
> 0 else 0)` (src/process_parquet.py:102). -/
def totalBatches (n bs : Nat) : Nat :=
  n / bs + (if n % bs > 0 then 1 else 0)

/-- What one network attempt inside `make_api_call` yields: an HTTP
response with a status code and parsed JSON body, or a
`requests.exceptions.RequestException`. -/
inductive Attempt (β : Type) where
  | http (status : Nat) (body : β)
  | transportError
  deriving DecidableEq, Repr

/-- The condition under which `make_api_call` returns the body
(src/utils.py:52-53): `response.status_code == 200`. -/
def attemptSuccess : Attempt β → Bool
  | .http 200 _ => true
  | _ => false

/-- The body the attempt carries, when it is an HTTP response. -/
def attemptBody : Attempt β → Option β
  | .http _ b => some b
  | .transportError => none

/-- The observable outcome of one `make_api_call` invocation: the value
returned (`None` on exhaustion), how many attempts were made, and the
`time.sleep` durations performed, in order. -/
structure CallTrace (β : Type) where
  result : Option β
  attemptsMade : Nat
  delays : List Nat
  deriving DecidableEq, Repr

/-- The `for attempt in range(max_retries)` loop of `make_api_call`
(src/utils.py:32-63), entered at attempt number `attempt` with
`remaining` loop iterations left.  A non-200 status and a transport
error behave alike: log, and `time.sleep(2 ** attempt)` unless this was
the last iteration (`attempt < max_retries - 1`). -/
def callLoop (env : Nat → Attempt β) (attempt remaining : Nat) : CallTrace β :=
  match remaining with
  | 0 => ⟨none, 0, []⟩
  | r + 1 =>
    if attemptSuccess (env attempt) then
      ⟨attemptBody (env attempt), 1, []⟩
    else if r = 0 then
      ⟨none, 1, []⟩
    else
      let t := callLoop env (attempt + 1) r
      ⟨t.result, t.attemptsMade + 1, 2 ^ attempt :: t.delays⟩

/-- `make_api_call` (src/utils.py:28-65) with the network abstracted as
an attempt oracle: run the loop from attempt 0 with `max_retries`
iterations; falling out of the loop returns `None`. -/
def make_api_call (env : Nat → Attempt β) (max_retries : Nat) : CallTrace β :=
  callLoop env 0 max_retries

/-- The `gdpr` object of a response item
(`result.get('gdpr', {})`; each text read with `.get`, so each field is
optional). -/
structure GdprObj where
  childText : Option String
  adultText : Option String
  proposedText : Option String
  deriving DecidableEq, Repr

/-- The `raw` object of a response item (`result.get('raw', {})`). -/
structure RawObj where
  proposedText : Option String
  deriving DecidableEq, Repr

/-- A well-shaped response item: every field the reconciler reads, each
through `.get` with its default (`isProposed` defaults to `False`,
everything else to `None`/absent). -/
structure ResultItem where
  pageId : Nat
  isProposed : Bool
  aiScore : Option Int
  gdpr : Option GdprObj
  raw : Option RawObj
  deriving DecidableEq, Repr

/-- An element of the response `texts` list: either well-shaped, or one
whose field reads raise (a non-dict item, a non-dict `gdpr`, ...), which
aborts the batch `try` block. -/
inductive RespItem where
  | valid (it : ResultItem)
  | malformed
  deriving DecidableEq, Repr

/-- What the driver sees back for one request
(src/process_parquet.py:123-125): `make_api_call` returned `None`
(`failed`), a truthy body without a `texts` key or a falsy body
(`missingKey`), or a body with a `texts` list (`ok`). -/
inductive ApiResponse where
  | failed
  | missingKey
  | ok (items : List RespItem)
  deriving DecidableEq, Repr

/-- `result.get('gdpr', {}).get('childText')`. -/
def gdprChild (it : ResultItem) : Option String :=
  match it.gdpr with
  | some g => g.childText
  | none => none

/-- `result.get('gdpr', {}).get('adultText')`. -/
def gdprAdult (it : ResultItem) : Option String :=
  match it.gdpr with
  | some g => g.adultText
  | none => none

/-- `result.get('gdpr', {}).get('proposedText')`. -/
def gdprProposed (it : ResultItem) : Option String :=
  match it.gdpr with
  | some g => g.proposedText
  | none => none

/-- `result.get('raw', {}).get('proposedText')`. -/
def rawProposed (it : ResultItem) : Option String :=
  match it.raw with
  | some r => r.proposedText
  | none => none

/-- `batch_df.loc[page_id]` (src/process_parquet.py:133): label lookup
of the pandas index within the batch slice; `none` is the `KeyError`
case. -/
def lookupRow (batch : List Record) (pid : Nat) : Option Record :=
  batch.find? fun r => r.idx == pid

/-- One `combined_result` dict (src/process_parquet.py:138-161).
`processed_at` (`datetime.now().isoformat()`) is wall-clock input
carried as `Unit`. -/
structure OutputRecord where
  original_id : String
  original_child_text : PyVal
  original_adult_text : PyVal
  original_time : String
  page_id : Nat
  is_proposed : Bool
  ai_score : Option Int
  gdpr_child_text : Option String
  gdpr_adult_text : Option String
  gdpr_proposed_text : Option String
  raw_proposed_text : Option String
  processed_at : Unit
  batch_number : Nat
  deriving DecidableEq, Repr

/-- Build the `combined_result` for a matched row. -/
def mkCombined (r : Record) (it : ResultItem) (batch_num : Nat) : OutputRecord :=
  { original_id := r.iD
    original_child_text := r.childText
    original_adult_text := r.adultText
    original_time := r.time
    page_id := it.pageId
    is_proposed := it.isProposed
    ai_score := it.aiScore
    gdpr_child_text := gdprChild it
    gdpr_adult_text := gdprAdult it
    gdpr_proposed_text := gdprProposed it
    raw_proposed_text := rawProposed it
    processed_at := ()
    batch_number := batch_num }

/-- The `for result in response['texts']` loop
(src/process_parquet.py:128-162): for each well-shaped item, look the
row up by `pageId`; on `KeyError` warn and `continue`; append the
combined result otherwise.  A malformed item raises out of the loop:
the Boolean reports whether the batch `try` block raised, and the list
holds the results appended before that point. -/
def reconcileLoop (batch : List Record) (batch_num : Nat) :
    List RespItem → List OutputRecord × Bool
  | [] => ([], false)
  | .malformed :: _ => ([], true)
  | .valid it :: rest =>
    match lookupRow batch it.pageId with
    | none => reconcileLoop batch batch_num rest
    | some r =>
      let p := reconcileLoop batch batch_num rest
      (mkCombined r it batch_num :: p.1, p.2)

/-- The driver accumulators (src/process_parquet.py:96-99), plus the
log of requests actually sent to the service (each `make_api_call`
invocation `texts` payload, in order). -/
structure PState where
  results : List OutputRecord
  failed_batches : List Nat
  skipped_rows : List SkipEntry
  calls : List (List ApiText)
  deriving DecidableEq, Repr

/-- The empty accumulators at run start. -/
def initState : PState := ⟨[], [], [], []⟩

/-- One iteration of the batch loop (src/process_parquet.py:111-174):
extend `skipped_rows`, call the service only when `texts` is non-empty,
reconcile a valid response item by item, and append `batch_num` to
`failed_batches` on an invalid response or an exception mid-loop. -/
def processBatch (service : List ApiText → ApiResponse)
    (batch : List Record) (batch_num : Nat) (st : PState) : PState :=
  let p := prepare_api_batch batch
  let st1 := { st with skipped_rows := st.skipped_rows ++ p.2 }
  if p.1.isEmpty then st1
  else
    let st2 := { st1 with calls := st1.calls ++ [p.1] }
    match service p.1 with
    | .ok items =>
      let r := reconcileLoop batch batch_num items
      let st3 := { st2 with results := st2.results ++ r.1 }
      if r.2 then
        { st3 with failed_batches := st3.failed_batches ++ [batch_num] }
      else st3
    | _ => { st2 with failed_batches := st2.failed_batches ++ [batch_num] }

/-- The batch loop over the remaining slices, numbering them from
`batch_num` (`batch_num = i // batch_size + 1`). -/
def runBatches (service : List ApiText → ApiResponse) :
    List (List Record) → Nat → PState → PState
  | [], _, st => st
  | c :: rest, batch_num, st =>
    runBatches service rest (batch_num + 1) (processBatch service c batch_num st)

/-- `process_parquet_file` (src/process_parquet.py:89-177) up to the
final `save_results` call: load and index the rows, slice them, and run
the batch loop from batch number 1. -/
def process_parquet_file (service : List ApiText → ApiResponse)
    (rows : List RowData) (batch_size : Nat) : PState :=
  runBatches service (chunkList batch_size (mkRecords rows)) 1 initState

/-- The files `save_results` (src/utils.py:67-94) writes, each as an
optional (path, content) pair. -/
structure SavedFiles where
  parquetFile : Option (String × List OutputRecord)
  jsonFile : Option (String × List OutputRecord)
  failedFile : Option (String × List Nat)
  skippedFile : Option (String × List SkipEntry × Nat)
  deriving DecidableEq, Repr

/-- `save_results` (src/utils.py:67-94): the parquet file and its JSON
mirror only when `results` is truthy; the failed-batches and
skipped-rows JSON files when their lists are truthy; sibling paths by
`str.replace` on `.parquet`. -/
def save_results (results : List OutputRecord) (output_file : String)
    (failed_batches : List Nat) (skipped_rows : List SkipEntry) : SavedFiles :=
  { parquetFile :=
      if results.isEmpty then none else some (output_file, results)
    jsonFile :=
      if results.isEmpty then none
      else some (output_file.replace ".parquet" ".json", results)
    failedFile :=
      if failed_batches.isEmpty then none
      else some (output_file.replace ".parquet" "_failed_batches.json",
        failed_batches)
    skippedFile :=
      if skipped_rows.isEmpty then none
      else some (output_file.replace ".parquet" "_skipped_rows.json",
        skipped_rows, skipped_rows.length) }

/-! Per-batch contributions of one loop iteration, read off from
`processBatch`; used to characterise the accumulated state. -/

/-- The `texts` list `prepare_api_batch` builds for a batch. -/
def batchTexts (c : List Record) : List ApiText :=
  (prepare_api_batch c).1

/-- The `skipped` list `prepare_api_batch` builds for a batch. -/
def batchSkips (c : List Record) : List SkipEntry :=
  (prepare_api_batch c).2

/-- Whether the reconciliation loop raises on this `texts` list: it
stops at the first malformed item. -/
def reconcileRaised : List RespItem → Bool
  | [] => false
  | .malformed :: _ => true
  | .valid _ :: rest => reconcileRaised rest

/-- The results one batch contributes to the accumulator. -/
def batchOut (service : List ApiText → ApiResponse)
    (c : List Record) (n : Nat) : List OutputRecord :=
  if (batchTexts c).isEmpty then []
  else
    match service (batchTexts c) with
    | .ok items => (reconcileLoop c n items).1
    | _ => []

/-- Whether one batch ends with `failed_batches.append(batch_num)`:
an invalid response, or an exception inside the reconciliation loop. -/
def batchFailedB (service : List ApiText → ApiResponse)
    (c : List Record) : Bool :=
  if (batchTexts c).isEmpty then false
  else
    match service (batchTexts c) with
    | .ok items => reconcileRaised items
    | _ => true

/-- The failed-batch numbers one batch contributes: `[n]` or `[]`. -/
def batchFail (service : List ApiText → ApiResponse)
    (c : List Record) (n : Nat) : List Nat :=
  if batchFailedB service c then [n] else []

/-- The requests one batch sends: none when all rows were filtered. -/
def batchCalls (c : List Record) : List (List ApiText) :=
  if (batchTexts c).isEmpty then [] else [batchTexts c]

/-- The well-shaped items of a response `texts` list, or `none` if any
item is malformed. -/
def validItems : List RespItem → Option (List ResultItem)
  | [] => some []
  | .valid it :: rest => (validItems rest).map (it :: ·)
  | .malformed :: _ => none

/-- The response discipline under which the conservation equation of
the spec holds for a batch: either the batch sends nothing; or the
service answers with well-shaped items whose `pageId` multiset is
exactly the submitted `pageId` multiset; or the request fails outright
and the batch had no skipped rows. -/
def respOK (service : List ApiText → ApiResponse) (c : List Record) : Bool :=
  (batchTexts c).isEmpty ||
    match service (batchTexts c) with
    | .ok items =>
      match validItems items with
      | some its =>
        (its.map ResultItem.pageId).isPerm ((batchTexts c).map ApiText.pageId)
      | none => false
    | _ => (batchSkips c).isEmpty

/-- The number of input rows belonging to batches recorded in
`failed_batches` (batch number `b` is slice `b - 1`). -/
def failedRowCount (st : PState) (chunks : List (List Record)) : Nat :=
  (st.failed_batches.map fun b => (chunks.getD (b - 1) []).length).sum

/-- A row whose two text cells are genuine strings. -/
structure StrRecord where
  idx : Nat
  iD : String
  childText : String
  adultText : String
  time : String
  deriving DecidableEq, Repr

/-- Embed a string-celled row as a `Record`. -/
def strRecord (q : StrRecord) : Record :=
  ⟨q.idx, q.iD, .vStr q.childText, .vStr q.adultText, q.time⟩

/-! Concrete inputs used in counterexamples and witnesses. -/

/-- A response item carrying only a `pageId` (everything else at its
`.get` default). -/
def okItem (pid : Nat) : ResultItem :=
  ⟨pid, false, none, none, none⟩

/-- An input row with string text cells. -/
def strRow (iD c a : String) : RowData :=
  ⟨iD, .vStr c, .vStr a, "t"⟩

/-- A service that answers every submitted row, in order. -/
def svcEcho : List ApiText → ApiResponse :=
  fun texts => .ok (texts.map fun t => .valid (okItem t.pageId))

/-- A three-row batch with index labels 0, 1, 2. -/
def batchC1 : List Record :=
  [⟨0, "id0", .vStr "c0", .vStr "a0", "t"⟩,
   ⟨1, "id1", .vStr "c1", .vStr "a1", "t"⟩,
   ⟨2, "id2", .vStr "c2", .vStr "a2", "t"⟩]

/-- A service returning only items for ids 2 and 0, in that order. -/
def svcC1 : List ApiText → ApiResponse :=
  fun _ => .ok [.valid (okItem 2), .valid (okItem 0)]

/-- A service returning one item whose id matches no row of `batchC1`. -/
def svcC1drop : List ApiText → ApiResponse :=
  fun _ => .ok [.valid (okItem 99)]

/-- Three rows that all pass the filter. -/
def rowsC2 : List RowData :=
  [strRow "a" "x" "y", strRow "b" "x" "y", strRow "c" "x" "y"]

/-- A service that drops the middle row of a three-row request. -/
def svcC2partial : List ApiText → ApiResponse :=
  fun _ => .ok [.valid (okItem 0), .valid (okItem 2)]

/-- An attempt oracle whose first attempt fails and whose second would
succeed. -/
def envC5 : Nat → Attempt String :=
  fun k => if k = 0 then .transportError else .http 200 "ok"

/-- Four rows that all pass the filter. -/
def rowsC6 : List RowData :=
  [strRow "a" "x" "y", strRow "b" "x" "y",
   strRow "c" "x" "y", strRow "d" "x" "y"]

/-- The first batch of `rowsC6` at batch size 2. -/
def batchC6 : List Record :=
  [⟨0, "a", .vStr "x", .vStr "y", "t"⟩, ⟨1, "b", .vStr "x", .vStr "y", "t"⟩]

/-- A service that fails exactly on requests containing row id 0 and
otherwise answers every row. -/
def svcC6 : List ApiText → ApiResponse :=
  fun texts =>
    if texts.any (fun t => t.pageId == 0) then .failed else svcEcho texts

/-- A batch whose only row is filtered out (empty child text). -/
def batchC7 : List Record :=
  [⟨0, "z", .vStr "", .vStr "y", "t"⟩]

/-- Three rows, the middle one with empty child text. -/
def rowsC9 : List RowData :=
  [strRow "a" "x" "y", strRow "b" "" "y", strRow "c" "x" "y"]

/-- A service whose response pairs one good item with one malformed
item, so the reconciliation loop raises after appending one result. -/
def svcC9 : List ApiText → ApiResponse :=
  fun _ => .ok [.valid (okItem 0), .malformed]

/-- Five rows for the partitioner witness. -/
def rowsC3 : List Record :=
  mkRecords [strRow "a" "x" "y", strRow "b" "x" "y", strRow "c" "x" "y",
    strRow "d" "x" "y", strRow "e" "x" "y"]

/-! Theorems. -/

theorem prepare_api_batch_texts (batch : List Record) :
    (prepare_api_batch batch).1 =
      (batch.filter fun r => !rowSkipped r).map
        fun r => ⟨r.idx, pyStrip (pyStr r.childText), pyStrip (pyStr r.adultText)⟩ := by
  induction batch with
  | nil => rfl
  | cons r rest ih =>
    by_cases h : pyStrip (pyStr r.childText) = "" ∨ pyStrip (pyStr r.adultText) = ""
    · simp [prepare_api_batch, rowSkipped, h, ih]
      rcases h with h | h <;> simp [h]
    · push_neg at h
      simp [prepare_api_batch, rowSkipped, h.1, h.2, ih]

theorem prepare_api_batch_skipped (batch : List Record) :
    (prepare_api_batch batch).2 =
      (batch.filter rowSkipped).map fun r => ⟨r.idx, r.iD, "empty_text"⟩ := by
  induction batch with
  | nil => rfl
  | cons r rest ih =>
    by_cases h : pyStrip (pyStr r.childText) = "" ∨ pyStrip (pyStr r.adultText) = ""
    · simp only [prepare_api_batch, ih]
      rcases h with h | h <;> simp [rowSkipped, h]
    · push_neg at h
      simp [prepare_api_batch, rowSkipped, h.1, h.2, ih]

theorem prepare_api_batch_length (batch : List Record) :
    (prepare_api_batch batch).1.length + (prepare_api_batch batch).2.length
      = batch.length := by
  rw [prepare_api_batch_texts, prepare_api_batch_skipped]
  simp only [List.length_map]
  induction batch with
  | nil => rfl
  | cons r rest ih =>
    by_cases h : rowSkipped r <;> simp [List.filter_cons, h] <;> omega

theorem chunkGo_flatten (bs : Nat) (h : 0 < bs) :
    ∀ (fuel : Nat) (l : List α), l.length ≤ fuel →
      (chunkGo bs fuel l).flatten = l := by
  intro fuel
  induction fuel with
  | zero =>
    intro l hl
    cases l with
    | nil => rfl
    | cons x xs => simp at hl
  | succ f ih =>
    intro l hl
    cases l with
    | nil => rfl
    | cons x xs =>
      obtain ⟨b, rfl⟩ : ∃ b, bs = b + 1 := ⟨bs - 1, by omega⟩
      rw [chunkGo, List.flatten_cons]
      have hd : (xs.drop (b + 1 - 1)).length ≤ f := by
        simp only [List.length_drop]
        simp only [List.length_cons] at hl
        omega
      rw [ih _ hd]
      simp [List.take_append_drop]

theorem chunkList_flatten (bs : Nat) (l : List α) (h : 0 < bs) :
    (chunkList bs l).flatten = l :=
  chunkGo_flatten bs h l.length l le_rfl

theorem chunkGo_sizes (bs : Nat) :
    ∀ (fuel : Nat) (l : List α), ∀ c ∈ chunkGo bs fuel l, c.length ≤ bs := by
  intro fuel
  induction fuel with
  | zero =>
    intro l c hc
    cases l <;> simp [chunkGo] at hc
  | succ f ih =>
    intro l c hc
    cases l with
    | nil => simp [chunkGo] at hc
    | cons x xs =>
      rw [chunkGo] at hc
      rcases List.mem_cons.mp hc with hc | hc
      · subst hc; exact List.length_take_le _ _
      · exact ih _ c hc

theorem chunkList_sizes (bs : Nat) (l : List α) :
    ∀ c ∈ chunkList bs l, c.length ≤ bs :=
  chunkGo_sizes bs l.length l

theorem totalBatches_succ (n bs : Nat) (h : 0 < bs) :
    totalBatches (n + 1) bs = totalBatches (n + 1 - bs) bs + 1 := by
  rcases Nat.lt_or_ge (n + 1) bs with hlt | hge
  · have h0 : n + 1 - bs = 0 := by omega
    have h1 : (n + 1) / bs = 0 := Nat.div_eq_of_lt hlt
    have h2 : (n + 1) % bs = n + 1 := Nat.mod_eq_of_lt hlt
    rw [h0]
    simp only [totalBatches, h1, h2, Nat.zero_div, Nat.zero_mod]
    simp
  · obtain ⟨m, hm⟩ : ∃ m, n + 1 = m + bs := ⟨n + 1 - bs, by omega⟩
    rw [hm, Nat.add_sub_cancel]
    simp only [totalBatches, Nat.add_div_right _ h, Nat.add_mod_right]
    by_cases hq : m % bs > 0 <;> simp [hq]

theorem chunkGo_length (bs : Nat) (h : 0 < bs) :
    ∀ (fuel : Nat) (l : List α), l.length ≤ fuel →
      (chunkGo bs fuel l).length = totalBatches l.length bs := by
  intro fuel
  induction fuel with
  | zero =>
    intro l hl
    cases l with
    | nil => simp [chunkGo, totalBatches]
    | cons x xs => simp at hl
  | succ f ih =>
    intro l hl
    cases l with
    | nil => simp [chunkGo, totalBatches]
    | cons x xs =>
      have hd : (xs.drop (bs - 1)).length ≤ f := by
        simp only [List.length_drop]
        simp only [List.length_cons] at hl
        omega
      rw [chunkGo, List.length_cons, ih _ hd]
      simp only [List.length_drop, List.length_cons]
      rw [totalBatches_succ xs.length bs h]
      congr 2
      omega

theorem chunkList_length (bs : Nat) (l : List α) (h : 0 < bs) :
    (chunkList bs l).length = totalBatches l.length bs :=
  chunkGo_length bs h l.length l le_rfl

theorem totalBatches_eq_ceil (n bs : Nat) (h : 0 < bs) :
    totalBatches n bs = (n + bs - 1) / bs := by
  have := Nat.div_add_mod n bs
  have hlt : n % bs < bs := Nat.mod_lt _ h
  unfold totalBatches
  rcases Nat.eq_zero_or_pos (n % bs) with hm | hm
  · have h1 : n + bs - 1 = bs * (n / bs) + (bs - 1) := by omega
    have h2 : (n + bs - 1) / bs = n / bs + (bs - 1) / bs := by
      rw [h1, Nat.mul_add_div h]
    have h3 : (bs - 1) / bs = 0 := Nat.div_eq_of_lt (by omega)
    rw [h2, h3]
    simp [hm]
  · have hlt1 : n % bs - 1 < bs := by omega
    have h1 : n + bs - 1 = bs * (n / bs) + (n % bs - 1 + bs) := by omega
    have h2 : (n + bs - 1) / bs = n / bs + (n % bs - 1 + bs) / bs := by
      rw [h1, Nat.mul_add_div h]
    have h3 : (n % bs - 1 + bs) / bs = (n % bs - 1) / bs + 1 :=
      Nat.add_div_right _ h
    have h4 : (n % bs - 1) / bs = 0 := Nat.div_eq_of_lt hlt1
    rw [h2, h3, h4]
    simp [hm]

theorem delays_shift (attempt n : Nat) :
    (List.range (n + 1)).map (fun k => 2 ^ (attempt + k)) =
      2 ^ attempt :: (List.range n).map (fun k => 2 ^ (attempt + 1 + k)) := by
  rw [List.range_succ_eq_map]
  simp only [List.map_cons, Nat.add_zero, List.map_map, List.cons.injEq, true_and]
  refine List.map_congr_left fun k _ => ?_
  simp only [Function.comp]
  congr 1
  omega

theorem callLoop_fail_step (env : Nat → Attempt β) (attempt r : Nat)
    (h0 : attemptSuccess (env attempt) = false) (hr : r ≠ 0) :
    callLoop env attempt (r + 1) =
      ⟨(callLoop env (attempt + 1) r).result,
        (callLoop env (attempt + 1) r).attemptsMade + 1,
        2 ^ attempt :: (callLoop env (attempt + 1) r).delays⟩ := by
  conv_lhs => rw [callLoop]
  simp [h0, hr]

theorem callLoop_attempts_le (env : Nat → Attempt β) (attempt remaining : Nat) :
    (callLoop env attempt remaining).attemptsMade ≤ remaining := by
  induction remaining generalizing attempt with
  | zero => simp [callLoop]
  | succ r ih =>
    by_cases hs : attemptSuccess (env attempt)
    · simp [callLoop, hs]
    · rcases Nat.eq_zero_or_pos r with hr | hr
      · simp [callLoop, hs, hr]
      · have hr0 : r ≠ 0 := by omega
        simp only [callLoop, hs, Bool.false_eq_true, if_false, hr0]
        simpa using ih (attempt + 1)

theorem callLoop_all_fail (env : Nat → Attempt β) (attempt remaining : Nat)
    (hf : ∀ k, k < remaining → attemptSuccess (env (attempt + k)) = false) :
    callLoop env attempt remaining =
      ⟨none, remaining,
        (List.range (remaining - 1)).map fun k => 2 ^ (attempt + k)⟩ := by
  induction remaining generalizing attempt with
  | zero => simp [callLoop]
  | succ r ih =>
    have h0 : attemptSuccess (env attempt) = false := by
      simpa using hf 0 (by omega)
    rcases Nat.eq_zero_or_pos r with hr | hr
    · subst hr
      simp [callLoop, h0]
    · obtain ⟨r', rfl⟩ : ∃ r', r = r' + 1 := ⟨r - 1, by omega⟩
      have ih1 := ih (attempt + 1) fun k hk => by
        have := hf (k + 1) (by omega)
        simpa [Nat.add_assoc, Nat.add_comm 1 k] using this
      rw [callLoop_fail_step env attempt (r' + 1) h0 (by omega), ih1]
      simp only [Nat.add_sub_cancel]
      rw [delays_shift attempt r']

theorem callLoop_first_success (env : Nat → Attempt β) (attempt remaining k : Nat)
    (hk : k < remaining)
    (hs : attemptSuccess (env (attempt + k)) = true)
    (hf : ∀ j, j < k → attemptSuccess (env (attempt + j)) = false) :
    callLoop env attempt remaining =
      ⟨attemptBody (env (attempt + k)), k + 1,
        (List.range k).map fun j => 2 ^ (attempt + j)⟩ := by
  induction remaining generalizing attempt k with
  | zero => omega
  | succ r ih =>
    cases k with
    | zero =>
      simp only [Nat.add_zero] at hs
      simp [callLoop, hs]
    | succ k' =>
      have h0 : attemptSuccess (env attempt) = false := by
        simpa using hf 0 (by omega)
      have hr0 : r ≠ 0 := by omega
      have ih1 := ih (attempt + 1) k' (by omega)
        (by simpa [Nat.add_assoc, Nat.add_comm 1 k'] using hs)
        (fun j hj => by
          have := hf (j + 1) (by omega)
          simpa [Nat.add_assoc, Nat.add_comm 1 j] using this)
      obtain ⟨r', rfl⟩ : ∃ r', r = r' + 1 := ⟨r - 1, by omega⟩
      rw [callLoop_fail_step env attempt (r' + 1) h0 (by omega), ih1,
        delays_shift attempt k']
      have ha : attempt + 1 + k' = attempt + (k' + 1) := by omega
      rw [ha]

theorem reconcileLoop_valid (batch : List Record) (bnum : Nat)
    (its : List ResultItem) :
    reconcileLoop batch bnum (its.map RespItem.valid) =
      (its.filterMap fun it =>
        (lookupRow batch it.pageId).map fun r => mkCombined r it bnum,
       false) := by
  induction its with
  | nil => rfl
  | cons it rest ih =>
    cases hl : lookupRow batch it.pageId with
    | none => simp [reconcileLoop, hl, ih]
    | some r => simp [reconcileLoop, hl, ih]

theorem reconcileLoop_snd (batch : List Record) (bnum : Nat)
    (items : List RespItem) :
    (reconcileLoop batch bnum items).2 = reconcileRaised items := by
  induction items with
  | nil => rfl
  | cons x rest ih =>
    cases x with
    | malformed => rfl
    | valid it =>
      cases hl : lookupRow batch it.pageId with
      | none => simpa [reconcileLoop, hl, reconcileRaised] using ih
      | some r => simpa [reconcileLoop, hl, reconcileRaised] using ih

theorem validItems_some (items : List RespItem) (its : List ResultItem)
    (h : validItems items = some its) : items = its.map RespItem.valid := by
  induction items generalizing its with
  | nil => simp [validItems] at h; simp [← h]
  | cons x rest ih =>
    cases x with
    | malformed => simp [validItems] at h
    | valid it =>
      rw [validItems] at h
      cases hv : validItems rest with
      | none => rw [hv] at h; simp at h
      | some its' =>
        rw [hv] at h
        simp only [Option.map_some', Option.some.injEq] at h
        simp [← h, ih its' hv]

theorem reconcileRaised_map_valid (its : List ResultItem) :
    reconcileRaised (its.map RespItem.valid) = false := by
  induction its with
  | nil => rfl
  | cons it rest ih => simpa [reconcileRaised] using ih

theorem reconcileLoop_valid_length (batch : List Record) (bnum : Nat)
    (its : List ResultItem)
    (h : ∀ it ∈ its, (lookupRow batch it.pageId).isSome) :
    (reconcileLoop batch bnum (its.map RespItem.valid)).1.length = its.length := by
  induction its with
  | nil => rfl
  | cons it rest ih =>
    have hhd : (lookupRow batch it.pageId).isSome := h it (by simp)
    obtain ⟨r, hr⟩ := Option.isSome_iff_exists.mp hhd
    have ihr := ih fun x hx => h x (by simp [hx])
    simp [reconcileLoop, hr, ihr]

theorem lookupRow_isSome_of_mem (batch : List Record) (pid : Nat)
    (h : ∃ r ∈ batch, r.idx = pid) : (lookupRow batch pid).isSome := by
  rw [lookupRow, List.find?_isSome]
  obtain ⟨r, hr, hid⟩ := h
  exact ⟨r, hr, by simp [hid]⟩

theorem batchTexts_pageId (c : List Record) (pid : Nat)
    (h : pid ∈ (batchTexts c).map ApiText.pageId) :
    ∃ r ∈ c, r.idx = pid := by
  rw [batchTexts, prepare_api_batch_texts, List.map_map] at h
  obtain ⟨r, hr, hid⟩ := List.mem_map.mp h
  exact ⟨r, List.mem_of_mem_filter hr, hid⟩

theorem out_batch_number (batch : List Record) (bnum : Nat)
    (items : List RespItem) :
    ∀ o ∈ (reconcileLoop batch bnum items).1, o.batch_number = bnum := by
  induction items with
  | nil => intro o ho; simp [reconcileLoop] at ho
  | cons x rest ih =>
    intro o ho
    cases x with
    | malformed => simp [reconcileLoop] at ho
    | valid it =>
      cases hl : lookupRow batch it.pageId with
      | none =>
        rw [reconcileLoop, hl] at ho
        exact ih o ho
      | some r =>
        rw [reconcileLoop, hl] at ho
        rcases List.mem_cons.mp ho with ho | ho
        · simp [ho, mkCombined]
        · exact ih o ho

theorem out_original (batch : List Record) (bnum : Nat)
    (items : List RespItem) :
    ∀ o ∈ (reconcileLoop batch bnum items).1,
      ∃ r ∈ batch, o.original_child_text = r.childText ∧
        o.original_adult_text = r.adultText ∧
        o.original_id = r.iD ∧ r.idx = o.page_id := by
  induction items with
  | nil => intro o ho; simp [reconcileLoop] at ho
  | cons x rest ih =>
    intro o ho
    cases x with
    | malformed => simp [reconcileLoop] at ho
    | valid it =>
      cases hl : lookupRow batch it.pageId with
      | none =>
        rw [reconcileLoop, hl] at ho
        exact ih o ho
      | some r =>
        rw [reconcileLoop, hl] at ho
        rcases List.mem_cons.mp ho with ho | ho
        · refine ⟨r, List.mem_of_find?_eq_some hl, ?_⟩
          have hid : r.idx = it.pageId := by
            have := List.find?_some hl
            simpa using this
          simp [ho, mkCombined, hid]
        · exact ih o ho

theorem processBatch_eq (service : List ApiText → ApiResponse)
    (c : List Record) (n : Nat) (st : PState) :
    processBatch service c n st =
      ⟨st.results ++ batchOut service c n,
       st.failed_batches ++ batchFail service c n,
       st.skipped_rows ++ batchSkips c,
       st.calls ++ batchCalls c⟩ := by
  unfold processBatch batchOut batchFail batchFailedB batchCalls batchTexts batchSkips
  by_cases he : (prepare_api_batch c).1.isEmpty
  · simp [he]
  · cases hsvc : service (prepare_api_batch c).1 with
    | ok items =>
      by_cases hra : reconcileRaised items
      · simp [he, hsvc, hra, reconcileLoop_snd]
      · simp [he, hsvc, hra, reconcileLoop_snd]
    | failed => simp [he, hsvc]
    | missingKey => simp [he, hsvc]

theorem runBatches_eq (service : List ApiText → ApiResponse)
    (chunks : List (List Record)) (n : Nat) (st : PState) :
    runBatches service chunks n st =
      ⟨st.results ++ (List.enumFrom n chunks).flatMap
          (fun p => batchOut service p.2 p.1),
       st.failed_batches ++ (List.enumFrom n chunks).flatMap
          (fun p => batchFail service p.2 p.1),
       st.skipped_rows ++ chunks.flatMap batchSkips,
       st.calls ++ chunks.flatMap batchCalls⟩ := by
  induction chunks generalizing n st with
  | nil => simp [runBatches, List.enumFrom]
  | cons c rest ih =>
    rw [runBatches, ih, processBatch_eq]
    simp [List.enumFrom, List.flatMap_cons, List.append_assoc]

theorem batch_count (service : List ApiText → ApiResponse)
    (c : List Record) (n : Nat) (hok : respOK service c = true) :
    (batchOut service c n).length
      + (if batchFailedB service c then c.length else 0)
      + (batchSkips c).length = c.length := by
  have hlen := prepare_api_batch_length c
  unfold respOK at hok
  by_cases he : (batchTexts c).isEmpty
  · have htx : (prepare_api_batch c).1 = [] := by
      rwa [batchTexts, List.isEmpty_iff] at he
    unfold batchOut batchFailedB batchSkips
    rw [htx] at hlen
    simp only [he, if_true, List.length_nil]
    simpa using hlen
  · simp only [he, Bool.false_or] at hok
    cases hsvc : service (batchTexts c) with
    | ok items =>
      rw [hsvc] at hok
      simp only at hok
      cases hv : validItems items with
      | none => rw [hv] at hok; simp at hok
      | some its =>
        rw [hv] at hok
        simp only at hok
        have hperm : (its.map ResultItem.pageId).Perm
            ((batchTexts c).map ApiText.pageId) := List.isPerm_iff.mp hok
        have hitems : items = its.map RespItem.valid := validItems_some items its hv
        have hraise : reconcileRaised items = false := by
          rw [hitems]; exact reconcileRaised_map_valid its
        have hall : ∀ it ∈ its, (lookupRow c it.pageId).isSome := by
          intro it hit
          apply lookupRow_isSome_of_mem
          apply batchTexts_pageId
          exact hperm.mem_iff.mp (List.mem_map_of_mem _ hit)
        have hlen2 : (reconcileLoop c n items).1.length = its.length := by
          rw [hitems]; exact reconcileLoop_valid_length c n its hall
        have hlen3 : its.length = (batchTexts c).length := by
          have := hperm.length_eq
          simpa using this
        have hout : (batchOut service c n).length = its.length := by
          simp [batchOut, he, hsvc, hlen2]
        have hfb : batchFailedB service c = false := by
          simp [batchFailedB, he, hsvc, hraise]
        rw [hout, hfb, batchSkips]
        rw [batchTexts] at hlen3
        simp only [Bool.false_eq_true, if_false]
        omega
    | failed =>
      rw [hsvc] at hok
      simp only at hok
      have hsk : (prepare_api_batch c).2 = [] := by
        rwa [batchSkips, List.isEmpty_iff] at hok
      have hout : batchOut service c n = [] := by
        simp [batchOut, he, hsvc]
      have hfb : batchFailedB service c = true := by
        simp [batchFailedB, he, hsvc]
      rw [hout, hfb, batchSkips, hsk]
      simp
    | missingKey =>
      rw [hsvc] at hok
      simp only at hok
      have hsk : (prepare_api_batch c).2 = [] := by
        rwa [batchSkips, List.isEmpty_iff] at hok
      have hout : batchOut service c n = [] := by
        simp [batchOut, he, hsvc]
      have hfb : batchFailedB service c = true := by
        simp [batchFailedB, he, hsvc]
      rw [hout, hfb, batchSkips, hsk]
      simp

theorem runBatches_count (service : List ApiText → ApiResponse)
    (chunks : List (List Record)) (n : Nat) (f : Nat → Nat)
    (hf : ∀ p ∈ List.enumFrom n chunks, f p.1 = p.2.length)
    (hok : ∀ c ∈ chunks, respOK service c = true) :
    ((List.enumFrom n chunks).flatMap (fun p => batchOut service p.2 p.1)).length
      + (((List.enumFrom n chunks).flatMap
          (fun p => batchFail service p.2 p.1)).map f).sum
      + (chunks.flatMap batchSkips).length
      = chunks.flatten.length := by
  induction chunks generalizing n with
  | nil => simp [List.enumFrom]
  | cons c rest ih =>
    have hc := batch_count service c n (hok c (by simp))
    have hfn : f n = c.length := hf (n, c) (by simp [List.enumFrom])
    have ihr := ih (n + 1)
      (fun p hp => hf p (by simp [List.enumFrom, hp]))
      (fun c' hc' => hok c' (by simp [hc']))
    simp only [List.enumFrom, List.flatMap_cons, List.length_append,
      List.map_append, List.sum_append, List.flatten_cons]
    by_cases hb : batchFailedB service c
    · have h1 : batchFail service c n = [n] := by simp [batchFail, hb]
      rw [h1]
      simp only [hb, if_true] at hc
      simp only [List.map_cons, List.sum_cons, List.map_nil, List.sum_nil, hfn]
      omega
    · have h1 : batchFail service c n = [] := by simp [batchFail, hb]
      rw [h1]
      simp only [hb, Bool.false_eq_true, if_false] at hc
      simp only [List.map_nil, List.sum_nil]
      omega

theorem enumFrom_fst_ge (l : List α) (n : Nat) :
    ∀ p ∈ List.enumFrom n l, n ≤ p.1 := by
  induction l generalizing n with
  | nil => intro p hp; simp [List.enumFrom] at hp
  | cons x xs ih =>
    intro p hp
    rcases List.mem_cons.mp hp with hp | hp
    · simp [hp]
    · have := ih (n + 1) p hp
      omega

theorem enumFrom_getD (l : List α) (n : Nat) (d : α) :
    ∀ p ∈ List.enumFrom n l, l.getD (p.1 - n) d = p.2 := by
  induction l generalizing n with
  | nil => intro p hp; simp [List.enumFrom] at hp
  | cons x xs ih =>
    intro p hp
    rcases List.mem_cons.mp hp with hp | hp
    · subst hp; simp
    · have h1 := ih (n + 1) p hp
      have h2 : n + 1 ≤ p.1 := enumFrom_fst_ge xs (n + 1) p hp
      obtain ⟨m, hm⟩ : ∃ m, p.1 - n = m + 1 := ⟨p.1 - (n + 1), by omega⟩
      rw [hm, List.getD_cons_succ]
      have hm2 : p.1 - (n + 1) = m := by omega
      rwa [hm2] at h1

theorem mkRecords_length (rows : List RowData) :
    (mkRecords rows).length = rows.length := by
  simp [mkRecords, List.enum_length]

/-- C3: for every record sequence and every positive batch size, the
partitioner produces batches each of at most batch-size records,
contiguous, non-overlapping and exhaustive (their concatenation in
order is exactly the input), the number of batches is the code's
`total_batches` formula, and that formula is ceil(total / batch size);
determinism is immediate since `chunkList` is a function of its
arguments. -/
theorem claim_C3 (l : List Record) (bs : Nat) (h : 0 < bs) :
    (∀ c ∈ chunkList bs l, c.length ≤ bs) ∧
    (chunkList bs l).flatten = l ∧
    (chunkList bs l).length = totalBatches l.length bs ∧
    totalBatches l.length bs = (l.length + bs - 1) / bs :=
  ⟨chunkList_sizes bs l, chunkList_flatten bs l h, chunkList_length bs l h,
   totalBatches_eq_ceil l.length bs h⟩

/-- Witness for C3 at five records and batch size 2. -/
theorem claim_C3_witness :
    (∀ c ∈ chunkList 2 rowsC3, c.length ≤ 2) ∧
    (chunkList 2 rowsC3).flatten = rowsC3 ∧
    (chunkList 2 rowsC3).length = totalBatches rowsC3.length 2 ∧
    totalBatches rowsC3.length 2 = (rowsC3.length + 2 - 1) / 2 :=
  claim_C3 rowsC3 2 (by decide)

/-- C4: for a batch of rows whose text cells are strings, a row lands
in the skip list, with reason always "empty_text", exactly when its
child text or adult text strips to empty; the remaining rows are
submitted, in their original order, with their row identifiers
unchanged, so a non-blank row is never skipped and a blank row is never
submitted. -/
theorem claim_C4 (qs : List StrRecord) :
    ((prepare_api_batch (qs.map strRecord)).2 =
      (qs.filter fun q => pyStrip q.childText = "" || pyStrip q.adultText = "").map
        fun q => ⟨q.idx, q.iD, "empty_text"⟩) ∧
    ((prepare_api_batch (qs.map strRecord)).1 =
      (qs.filter fun q =>
          !(pyStrip q.childText = "" || pyStrip q.adultText = "")).map
        fun q => ⟨q.idx, pyStrip q.childText, pyStrip q.adultText⟩) := by
  induction qs with
  | nil => exact ⟨rfl, rfl⟩
  | cons q rest ih =>
    by_cases h : pyStrip q.childText = "" ∨ pyStrip q.adultText = ""
    · have hor : pyStrip q.childText = "" ∨ pyStrip q.adultText = "" := h
      rcases h with h | h <;>
        (refine ⟨?_, ?_⟩ <;>
          simp [prepare_api_batch, strRecord, pyStr, List.filter_cons, h, hor,
            ih.1, ih.2])
    · push_neg at h
      refine ⟨?_, ?_⟩ <;>
        simp [prepare_api_batch, strRecord, pyStr, List.filter_cons, h.1, h.2,
          ih.1, ih.2]

/-- C5 (amended): `make_api_call` makes at most `max_retries` attempts
in total — that is, after a failed attempt it retries only while fewer
than `max_retries` attempts have been made, so it retries up to
`max_retries - 1` times, not `max_retries` times — sleeping
`2 ^ attempt` seconds between consecutive attempts (attempt counted
from 0), returns the parsed body exactly when an attempt gets HTTP 200
(any other status or a transport error fails the attempt), and returns
`None` rather than raising after the last attempt fails. -/
theorem claim_C5 (β : Type) (env : Nat → Attempt β) (m : Nat) :
    ((make_api_call env m).attemptsMade ≤ m) ∧
    ((∀ k, k < m → attemptSuccess (env k) = false) →
      make_api_call env m =
        ⟨none, m, (List.range (m - 1)).map fun k => 2 ^ k⟩) ∧
    (∀ k, k < m → attemptSuccess (env k) = true →
      (∀ j, j < k → attemptSuccess (env j) = false) →
      make_api_call env m =
        ⟨attemptBody (env k), k + 1, (List.range k).map fun j => 2 ^ j⟩) := by
  refine ⟨callLoop_attempts_le env 0 m, ?_, ?_⟩
  · intro hf
    have h := callLoop_all_fail env 0 m fun k hk => by simpa using hf k hk
    simpa [make_api_call] using h
  · intro k hk hs hf
    have h := callLoop_first_success env 0 m k hk (by simpa using hs)
      fun j hj => by simpa using hf j hj
    simpa [make_api_call] using h

/-- Counterexample to C5 as stated: with `max_retries = 1` (the code's
default) the first attempt fails and no retry happens — only one
attempt is made and `None` is returned — although attempt 1, which the
claimed policy of retrying up to `max_retries` times after a failure
would have made, returns HTTP 200. -/
theorem claim_C5_counterexample :
    (make_api_call envC5 1).result = none ∧
    (make_api_call envC5 1).attemptsMade = 1 ∧
    attemptSuccess (envC5 1) = true := by decide

/-- Witness for C5 at `max_retries = 2` against an oracle whose first
attempt fails and whose second succeeds: two attempts, one sleep of
`2 ^ 0` seconds, body returned. -/
theorem claim_C5_witness :
    make_api_call envC5 2 = ⟨some "ok", 2, [1]⟩ := by
  have h := (claim_C5 String envC5 2).2.2 1 (by decide) (by decide)
    fun j hj => by interval_cases j; decide
  rw [h]
  decide

/-- C7: a batch whose rows are all filtered out changes the driver
state only by appending its skip entries: the service is not invoked
(the call log is unchanged), and the batch contributes neither
OutputRecords nor a FailureEntry. -/
theorem claim_C7 (service : List ApiText → ApiResponse) (c : List Record)
    (n : Nat) (st : PState) (h : batchTexts c = []) :
    processBatch service c n st =
      { st with skipped_rows := st.skipped_rows ++ batchSkips c } := by
  rw [processBatch_eq]
  have h1 : batchOut service c n = [] := by simp [batchOut, h]
  have h2 : batchFail service c n = [] := by
    simp [batchFail, batchFailedB, h]
  have h3 : batchCalls c = [] := by simp [batchCalls, h]
  simp [h1, h2, h3]

/-- Witness for C7 at a one-row batch whose row has empty child text. -/
theorem claim_C7_witness :
    processBatch svcEcho batchC7 1 initState =
      ⟨[], [], [⟨0, "z", "empty_text"⟩], []⟩ := by
  have h := claim_C7 svcEcho batchC7 1 initState (by decide)
  rw [h]
  decide

/-- C8: `save_results` writes the columnar file and its JSON mirror
exactly when at least one OutputRecord exists; the failed-batches file
exactly when the failure list is non-empty and the skipped-rows file
(with the skip count) exactly when the skip list is non-empty — the
latter two regardless of whether any OutputRecords exist. -/
theorem claim_C8 (results : List OutputRecord) (out : String)
    (failed : List Nat) (skipped : List SkipEntry) :
    ((save_results results out failed skipped).parquetFile ≠ none ↔
      results ≠ []) ∧
    ((save_results results out failed skipped).jsonFile ≠ none ↔
      results ≠ []) ∧
    ((save_results results out failed skipped).failedFile ≠ none ↔
      failed ≠ []) ∧
    ((save_results results out failed skipped).skippedFile =
      if skipped.isEmpty then none
      else some (out.replace ".parquet" "_skipped_rows.json",
        skipped, skipped.length)) := by
  refine ⟨?_, ?_, ?_, rfl⟩
  · by_cases h : results = [] <;> simp [save_results, h]
  · by_cases h : results = [] <;> simp [save_results, h]
  · by_cases h : failed = [] <;> simp [save_results, h]

/-- C9: batch processing is not atomic on error — on a response whose
second item is malformed, the result appended for the first item stays
in the accumulator while the same batch is also recorded as failed, and
the skip entry recorded for that batch before the failure is kept. -/
theorem claim_C9 :
    ((process_parquet_file svcC9 rowsC9 3).results.map
        fun o => (o.page_id, o.batch_number)) = [(0, 1)] ∧
    (process_parquet_file svcC9 rowsC9 3).failed_batches = [1] ∧
    (process_parquet_file svcC9 rowsC9 3).skipped_rows =
      [⟨1, "b", "empty_text"⟩] := by
  refine ⟨by decide, by decide, by decide⟩

/-- C10: the emptiness check and the request payload use stripped
`str()` coercions of the stored cells, while a matched OutputRecord
keeps the stored, uncoerced, untrimmed values; in particular a `None`
cell is coerced to the non-empty string "None" and the row is submitted
rather than skipped. -/
theorem claim_C10 :
    (∀ batch : List Record,
        (prepare_api_batch batch).1 =
          (batch.filter fun r => !rowSkipped r).map
            fun r => ⟨r.idx, pyStrip (pyStr r.childText),
              pyStrip (pyStr r.adultText)⟩) ∧
    (∀ (batch : List Record) (bnum : Nat) (items : List RespItem),
        ∀ o ∈ (reconcileLoop batch bnum items).1,
          ∃ r ∈ batch, o.original_child_text = r.childText ∧
            o.original_adult_text = r.adultText ∧ r.idx = o.page_id) ∧
    prepare_api_batch [⟨5, "x", PyVal.vNone, PyVal.vStr "hi", "t"⟩] =
      ([⟨5, "None", "hi"⟩], []) := by
  refine ⟨prepare_api_batch_texts, ?_, by decide⟩
  intro batch bnum items o ho
  obtain ⟨r, hr, h1, h2, h3, h4⟩ := out_original batch bnum items o ho
  exact ⟨r, hr, h1, h2, h4⟩

/-- Witness for C10's reconciler part at a concrete matched item. -/
theorem claim_C10_witness :
    ∃ r ∈ batchC1,
      (mkCombined ⟨2, "id2", PyVal.vStr "c2", PyVal.vStr "a2", "t"⟩
          (okItem 2) 1).original_child_text = r.childText ∧
      (mkCombined ⟨2, "id2", PyVal.vStr "c2", PyVal.vStr "a2", "t"⟩
          (okItem 2) 1).original_adult_text = r.adultText ∧
      r.idx = (mkCombined ⟨2, "id2", PyVal.vStr "c2", PyVal.vStr "a2", "t"⟩
          (okItem 2) 1).page_id :=
  (claim_C10).2.1 batchC1 1 [RespItem.valid (okItem 2)]
    (mkCombined ⟨2, "id2", PyVal.vStr "c2", PyVal.vStr "a2", "t"⟩
      (okItem 2) 1)
    (by decide)

/-- C1: every response item is matched to its originating row by a
lookup of its `pageId` among the batch's index labels — the outputs are
exactly the items whose lookup succeeds, merged in response order, and
an item whose identifier matches no row contributes nothing and raises
nothing.  Concretely, on the batch with rows 0, 1, 2 and a response
holding only items for ids 2 and 0, exactly two OutputRecords arise,
paired to rows 2 and 0, row 1 producing neither an OutputRecord nor a
FailureEntry nor a SkipEntry; and a response holding only an unmatched
id 99 leaves the state unchanged apart from the logged request. -/
theorem claim_C1 :
    (∀ (batch : List Record) (bnum : Nat) (its : List ResultItem),
        reconcileLoop batch bnum (its.map RespItem.valid) =
          (its.filterMap fun it =>
            (lookupRow batch it.pageId).map fun r => mkCombined r it bnum,
           false)) ∧
    ((processBatch svcC1 batchC1 7 initState).results.map
        fun o => (o.page_id, o.original_id)) = [(2, "id2"), (0, "id0")] ∧
    (processBatch svcC1 batchC1 7 initState).failed_batches = [] ∧
    (processBatch svcC1 batchC1 7 initState).skipped_rows = [] ∧
    processBatch svcC1drop batchC1 7 initState =
      { initState with calls := [batchTexts batchC1] } := by
  refine ⟨reconcileLoop_valid, by decide, by decide, by decide, by decide⟩

theorem batchOut_bnum (service : List ApiText → ApiResponse)
    (c : List Record) (n : Nat) :
    ∀ o ∈ batchOut service c n, o.batch_number = n := by
  intro o ho
  rw [batchOut] at ho
  by_cases he : (batchTexts c).isEmpty
  · simp [he] at ho
  · simp only [he, if_false, Bool.false_eq_true] at ho
    cases hsvc : service (batchTexts c) with
    | ok items =>
      rw [hsvc] at ho
      simp only at ho
      exact out_batch_number c n items o ho
    | failed => rw [hsvc] at ho; simp at ho
    | missingKey => rw [hsvc] at ho; simp at ho

theorem batchFail_sublist (service : List ApiText → ApiResponse) :
    ∀ (l : List (List Record)) (n : Nat),
      (((List.enumFrom n l).flatMap fun p => batchFail service p.2 p.1)).Sublist
        ((List.enumFrom n l).map Prod.fst) := by
  intro l
  induction l with
  | nil => intro n; simp [List.enumFrom]
  | cons c rest ih =>
    intro n
    simp only [List.enumFrom, List.flatMap_cons, List.map_cons]
    by_cases hb : batchFailedB service c
    · have h1 : batchFail service c n = [n] := by simp [batchFail, hb]
      rw [h1]
      simpa using List.Sublist.cons₂ n (ih (n + 1))
    · have h1 : batchFail service c n = [] := by simp [batchFail, hb]
      rw [h1]
      simpa using List.Sublist.cons n (ih (n + 1))

/-- C6: when the service signals failure for a submitted batch — a
`None` return after retries, or a response without the `texts` key —
exactly one FailureEntry carrying that batch's sequence number is
recorded, no OutputRecord carries that batch number, and the run still
visits every batch: the final skip and call logs are the concatenation
of all batches' contributions. -/
theorem claim_C6 (rows : List RowData) (bs : Nat)
    (service : List ApiText → ApiResponse) (i : Nat) (c : List Record)
    (hc : (chunkList bs (mkRecords rows))[i]? = some c)
    (hne : batchTexts c ≠ [])
    (hfail : service (batchTexts c) = ApiResponse.failed ∨
      service (batchTexts c) = ApiResponse.missingKey) :
    (process_parquet_file service rows bs).failed_batches.count (i + 1) = 1 ∧
    (∀ o ∈ (process_parquet_file service rows bs).results,
      o.batch_number ≠ i + 1) ∧
    (process_parquet_file service rows bs).skipped_rows =
      (chunkList bs (mkRecords rows)).flatMap batchSkips ∧
    (process_parquet_file service rows bs).calls =
      (chunkList bs (mkRecords rows)).flatMap batchCalls := by
  have hrun := runBatches_eq service (chunkList bs (mkRecords rows)) 1 initState
  have hfb : batchFailedB service c = true := by
    rcases hfail with hf | hf <;>
      simp [batchFailedB, hf, List.isEmpty_iff, hne]
  have hout : batchOut service c (i + 1) = [] := by
    rcases hfail with hf | hf <;> simp [batchOut, hf]
  have hmem : ((i : Nat) + 1, c) ∈
      List.enumFrom 1 (chunkList bs (mkRecords rows)) := by
    have h1 := List.getElem?_enumFrom 1 (chunkList bs (mkRecords rows)) i
    rw [hc] at h1
    have h2 : ((1 : Nat) + i, c) = (i + 1, c) := by rw [Nat.add_comm]
    exact h2 ▸ List.getElem?_mem h1
  refine ⟨?_, ?_, ?_, ?_⟩
  · rw [process_parquet_file, hrun]
    simp only [initState, List.nil_append]
    have hsub := batchFail_sublist service (chunkList bs (mkRecords rows)) 1
    have hnodup : (((List.enumFrom 1 (chunkList bs (mkRecords rows))).flatMap
        fun p => batchFail service p.2 p.1)).Nodup := by
      apply hsub.nodup
      rw [List.enumFrom_map_fst]
      exact List.nodup_range' _ _
    apply List.count_eq_one_of_mem hnodup
    apply List.mem_flatMap.mpr
    refine ⟨(i + 1, c), hmem, ?_⟩
    simp [batchFail, hfb]
  · intro o ho hbn
    rw [process_parquet_file, hrun] at ho
    simp only [initState, List.nil_append] at ho
    obtain ⟨p, hp, hop⟩ := List.mem_flatMap.mp ho
    have hpb : o.batch_number = p.1 := batchOut_bnum service p.2 p.1 o hop
    have hp1 : p.1 = i + 1 := by rw [← hpb, hbn]
    have hp2 : p.2 = c := by
      have hg := enumFrom_getD (chunkList bs (mkRecords rows)) 1 [] p hp
      rw [hp1] at hg
      simp only [Nat.add_sub_cancel] at hg
      have hg2 : (chunkList bs (mkRecords rows)).getD i [] = c := by
        rw [List.getD_eq_getElem?_getD, hc]; rfl
      rw [← hg, hg2]
    rw [hp1, hp2, hout] at hop
    simp at hop
  · rw [process_parquet_file, hrun]
    simp [initState]
  · rw [process_parquet_file, hrun]
    simp [initState]

/-- Witness for C6: four rows at batch size 2 against a service that
fails exactly on the request containing row 0 — batch 1 fails once,
batch 2 succeeds. -/
theorem claim_C6_witness :
    (process_parquet_file svcC6 rowsC6 2).failed_batches.count 1 = 1 ∧
    (∀ o ∈ (process_parquet_file svcC6 rowsC6 2).results,
      o.batch_number ≠ 1) ∧
    (process_parquet_file svcC6 rowsC6 2).skipped_rows =
      (chunkList 2 (mkRecords rowsC6)).flatMap batchSkips ∧
    (process_parquet_file svcC6 rowsC6 2).calls =
      (chunkList 2 (mkRecords rowsC6)).flatMap batchCalls := by
  have h := claim_C6 rowsC6 2 svcC6 0 batchC6 (by decide) (by decide)
    (Or.inl (by decide))
  simpa using h

/-- C2 (amended): the conservation equation |OutputRecords| + |rows in
failed batches| + |SkipEntries| = |input records| holds provided every
batch's response is disciplined (`respOK`): the batch sends nothing, or
the service answers with well-shaped items whose `pageId` multiset is
exactly the submitted `pageId` multiset, or the request fails outright
on a batch with no skipped rows.  Without that hypothesis the code
violates the equation: a response may drop a submitted row (the
soft-mismatch path), which produces no OutputRecord, no FailureEntry
and no SkipEntry for that row. -/
theorem claim_C2 (rows : List RowData) (bs : Nat)
    (service : List ApiText → ApiResponse) (hbs : 0 < bs)
    (hok : ∀ c ∈ chunkList bs (mkRecords rows), respOK service c = true) :
    (process_parquet_file service rows bs).results.length
      + failedRowCount (process_parquet_file service rows bs)
          (chunkList bs (mkRecords rows))
      + (process_parquet_file service rows bs).skipped_rows.length
      = rows.length := by
  have hrun := runBatches_eq service (chunkList bs (mkRecords rows)) 1 initState
  rw [process_parquet_file, hrun, failedRowCount]
  simp only [initState, List.nil_append]
  have hf : ∀ p ∈ List.enumFrom 1 (chunkList bs (mkRecords rows)),
      ((chunkList bs (mkRecords rows)).getD (p.1 - 1) []).length
        = p.2.length := by
    intro p hp
    rw [enumFrom_getD (chunkList bs (mkRecords rows)) 1 [] p hp]
  have hcount := runBatches_count service (chunkList bs (mkRecords rows)) 1
    (fun b => ((chunkList bs (mkRecords rows)).getD (b - 1) []).length)
    hf hok
  rw [hcount, chunkList_flatten bs _ hbs, mkRecords_length]

/-- Counterexample to C2 as stated: three rows in one batch, the
service answers only for rows 0 and 2 — two OutputRecords, no
FailureEntry, no SkipEntry, so the three categories cover only two of
the three input records. -/
theorem claim_C2_counterexample :
    ¬((process_parquet_file svcC2partial rowsC2 3).results.length
      + failedRowCount (process_parquet_file svcC2partial rowsC2 3)
          (chunkList 3 (mkRecords rowsC2))
      + (process_parquet_file svcC2partial rowsC2 3).skipped_rows.length
      = rowsC2.length) := by decide

/-- Witness for C2 with an echoing service on three rows at batch
size 2. -/
theorem claim_C2_witness :
    (process_parquet_file svcEcho rowsC2 2).results.length
      + failedRowCount (process_parquet_file svcEcho rowsC2 2)
          (chunkList 2 (mkRecords rowsC2))
      + (process_parquet_file svcEcho rowsC2 2).skipped_rows.length
      = rowsC2.length :=
  claim_C2 rowsC2 2 svcEcho (by decide) (by decide)
